import Mathlib

/-!
Verification of the rabbithole player core: a shallow embedding of
`src/state.js` (the discovery state machine) and
`src/player/webamp-chartifacts.js` (the timeline resolver, dynamic
weighting and the one-shot moment dispatcher), with theorems checking the
specification's testable properties against the embedded code.

Conventions of the embedding:
* JS numbers are rationals (`ℚ`); all values appearing here are exact in
  IEEE doubles, so no rounding is modelled.
* JS objects used as string-keyed maps are association lists
  (`List (String × α)`) with unique keys; `lookupStr` is property access.
* A JS `Set` is a duplicate-free list in insertion order; `addToSet` is
  `Set.add`, `List.filter (· ≠ s)` is `Set.delete`.
* `null`/`undefined` are `Option.none`.
* Ambient randomness (`Math.random`) is injected as a natural-number draw
  `r`; `Math.floor(Math.random() * n)` is modelled as `r % n`, which
  ranges over exactly the indices the source can produce.
-/

namespace Rabbithole

/-- Association-list lookup: JS property access `obj[key]` on a
string-keyed object. -/
def lookupStr {α : Type} (l : List (String × α)) (key : String) : Option α :=
  (l.find? (fun p => p.1 = key)).map (·.2)

/-- The apostrophe character, written via its code point. -/
def apos : Char := Char.ofNat 39

/-- ASCII whitespace, the fragment of the JS `\s` class our inputs use. -/
def isJsWhitespace (c : Char) : Bool :=
  c = ' ' || c = Char.ofNat 9 || c = Char.ofNat 10 || c = Char.ofNat 13

/-- One pass of `replace(/\s+/g, '-')`: a run of whitespace becomes a
single dash.  The flag records whether the previous character was
whitespace (so the run emits only one dash). -/
def collapseWSAux : List Char → Bool → List Char
  | [], _ => []
  | c :: rest, prevWS =>
    if isJsWhitespace c then
      if prevWS then collapseWSAux rest true
      else '-' :: collapseWSAux rest true
    else c :: collapseWSAux rest false

/-- `normalizeSlug` from state.js:
`title.toLowerCase().replace(/\s+/g, '-').replace(/'/g, '')`.
`Char.toLower` matches JS `toLowerCase` on the ASCII titles in play. -/
def normalizeSlug (title : String) : String :=
  String.mk ((collapseWSAux (title.data.map Char.toLower) false).filter
    (fun c => c ≠ apos))

/-- A catalog: slug → title.  `getCatalog()` returns such a map; a slug is
"in the catalog" when lookup succeeds (the JS truthiness test
`catalog[songSlug]` on an object value). -/
abbrev Catalog : Type := List (String × String)

/-- Catalog lookup, returning the entry's `title` field when present. -/
def lookupCatalog (catalog : Catalog) (slug : String) : Option String :=
  lookupStr catalog slug

/-- A `{songSlug, songTitle, viaMusician}` record: the shape of
`nextSong` and of each history entry.  `songSlug` is an `Option` because
the no-candidate sentinel carries `songSlug: null`. -/
structure SongRef where
  songSlug : Option String
  songTitle : String
  viaMusician : String
  deriving DecidableEq

/-- The mutable fields of `RabbitholeState`. -/
structure RHState where
  followingMusician : Option String
  playedSongs : List String
  currentSongSlug : Option String
  followMode : String
  history : List SongRef
  nextSong : Option SongRef
  queue : List String
  deriving DecidableEq

/-- The field values the constructor assigns before `loadFromStorage`. -/
def initialState : RHState :=
  { followingMusician := none
    playedSongs := []
    currentSongSlug := none
    followMode := "same"
    history := []
    nextSong := none
    queue := [] }

/-- JS `Set.add`: append unless already a member (insertion order kept). -/
def addToSet (l : List String) (s : String) : List String :=
  if l.contains s then l else l ++ [s]

/-- `new Set(array)`: keep the first occurrence of each element. -/
def jsSetAux (seen : List String) : List String → List String
  | [] => []
  | s :: rest =>
    if seen.contains s then jsSetAux seen rest
    else s :: jsSetAux (s :: seen) rest

/-- The predicate of the `playableSongs` filter in
`queueNextSongByMusician`: present in the catalog, not already played,
and not the current song. -/
def isPlayableConn (catalog : Catalog) (st : RHState) (connSong : String) :
    Bool :=
  let songSlug := normalizeSlug connSong
  (lookupCatalog catalog songSlug).isSome
    && !(st.playedSongs.contains songSlug)
    && some songSlug ≠ st.currentSongSlug

/-- `queueNextSongByMusician(musicianName)` from state.js.  `conns` is
the awaited result of `getConnections` (each entry reduced to its `song`
field, the only one the function reads); `r` is the injected random
draw.  Returns the state after the call together with the payload passed
to `onNextSongQueued`, or `none` when the observer was not invoked. -/
def queueNextSongByMusician (catalog : Catalog) (st : RHState)
    (musicianName : String) (conns : Option (List String)) (r : ℕ) :
    RHState × Option SongRef :=
  match conns with
  | none => (st, none)
  | some connectionsData =>
    let playableSongs := connectionsData.filter (isPlayableConn catalog st)
    if playableSongs.length = 0 then
      let ns : SongRef :=
        { songSlug := none, songTitle := "No songs queued",
          viaMusician := musicianName }
      ({ st with nextSong := some ns }, some ns)
    else
      let randomIndex := r % playableSongs.length
      let nextSongConn := playableSongs.getD randomIndex ""
      let nextSlug := normalizeSlug nextSongConn
      let songTitle := (lookupCatalog catalog nextSlug).getD nextSongConn
      let ns : SongRef :=
        { songSlug := some nextSlug, songTitle := songTitle,
          viaMusician := musicianName }
      ({ st with queue := [nextSlug], nextSong := some ns }, some ns)

/-- `setCurrentSong(songSlug)` from state.js: push the previous song to
history when a previous song, a `nextSong` recommendation and a catalog
entry for the previous song all exist; mark the previous song played
unconditionally; then switch the current slug. -/
def setCurrentSong (catalog : Catalog) (st : RHState) (songSlug : String) :
    RHState :=
  let st1 : RHState :=
    match st.currentSongSlug, st.nextSong with
    | some cur, some ns =>
      match lookupCatalog catalog cur with
      | some title =>
        { st with history := st.history ++
            [{ songSlug := some cur, songTitle := title,
               viaMusician := ns.viaMusician }] }
      | none => st
    | _, _ => st
  let st2 :=
    match st.currentSongSlug with
    | some cur => { st1 with playedSongs := addToSet st1.playedSongs cur }
    | none => st1
  { st2 with currentSongSlug := some songSlug }

/-- `goBack()` from state.js: pop the last history entry, delete its slug
from `playedSongs`, and return it; `none` on empty history. -/
def goBack (st : RHState) : Option SongRef × RHState :=
  match st.history.getLast? with
  | none => (none, st)
  | some previousSong =>
    let played :=
      match previousSong.songSlug with
      | some s => st.playedSongs.filter (fun x => x ≠ s)
      | none => st.playedSongs
    (some previousSong,
      { st with history := st.history.dropLast, playedSongs := played })

/-- `isPlayable(songSlug)` from state.js. -/
def isPlayable (catalog : Catalog) (st : RHState) (songSlug : String) :
    Bool :=
  (lookupCatalog catalog songSlug).isSome
    && !(st.playedSongs.contains songSlug)
    && some songSlug ≠ st.currentSongSlug

/-- The JSON object `saveToStorage` writes under the single key
`'rabbitholeState'`. -/
structure SavedState where
  followingMusician : Option String
  playedSongs : List String
  currentSongSlug : Option String
  followMode : String
  deriving DecidableEq

/-- `saveToStorage()` from state.js: exactly the four persisted fields. -/
def saveToStorage (st : RHState) : SavedState :=
  { followingMusician := st.followingMusician
    playedSongs := st.playedSongs
    currentSongSlug := st.currentSongSlug
    followMode := st.followMode }

/-- Constructing a fresh `RabbitholeState` over a storage cell
(`none` = key absent or unparseable, the catch path).  The constructor
assigns the initial fields and calls `loadFromStorage`, which reassigns
only `playedSongs` (through `new Set`) and `followMode` (with the JS
`|| 'same'` fallback, which also replaces an empty string). -/
def newRabbitholeState (storage : Option SavedState) : RHState :=
  match storage with
  | none => initialState
  | some parsed =>
    { initialState with
      playedSongs := jsSetAux [] parsed.playedSongs
      followMode := if parsed.followMode = "" then "same"
                    else parsed.followMode }

/-- An `ArrangementSpec`: the non-numeric fields a timeline value can
carry.  All fields are optional; `none` is "key absent".  (YAML input
never stores an explicit `null` under a present key, so absence is the
only case the merge must distinguish.)  `length` is the section-only
duration override; `detail`/`type`/`soloist` serve the legacy entry
forms. -/
structure ArrangementSpec where
  part : Option String := none
  solo : Option String := none
  soloist : Option String := none
  pickup : Option String := none
  detail : Option String := none
  type : Option String := none
  feature : Option (List (String × String)) := none
  musicians : Option (List (String × String)) := none
  instrumentChanges : Option (List (String × String)) := none
  length : Option ℚ := none
  deriving DecidableEq

/-- One field of the JS spread `{...base, ...sub}`: the sub-moment's
value wins whenever its key is present. -/
def mergeField {α : Type} (b s : Option α) : Option α :=
  match s with
  | some v => some v
  | none => b

/-- The shallow merge `{...baseSectionData, ...momentData}` as a total
function over two all-optional records. -/
def mergeSpec (base sub : ArrangementSpec) : ArrangementSpec :=
  { part := mergeField base.part sub.part
    solo := mergeField base.solo sub.solo
    soloist := mergeField base.soloist sub.soloist
    pickup := mergeField base.pickup sub.pickup
    detail := mergeField base.detail sub.detail
    type := mergeField base.type sub.type
    feature := mergeField base.feature sub.feature
    musicians := mergeField base.musicians sub.musicians
    instrumentChanges := mergeField base.instrumentChanges
      sub.instrumentChanges
    length := mergeField base.length sub.length }

/-- A processed-timeline value: the spec plus the `_isSectionStart` /
`_isSubMoment` marker fields (absent markers read as `false`). -/
structure ResolvedArrangement where
  spec : ArrangementSpec
  isSectionStart : Bool := false
  isSubMoment : Bool := false
  deriving DecidableEq

/-- A raw timeline key: a numeric string (explicit absolute time) or a
section identifier `section<n>`. -/
inductive TKey where
  | num (t : ℚ)
  | sec (n : ℕ)
  deriving DecidableEq

/-- A raw timeline value.  A JS object mixes numeric sub-moment keys with
field keys; the embedding carries that partition explicitly: `base` holds
the non-numeric fields (what the splitting loop in `processTimelineKeys`
calls `baseSectionData`) and `subMoments` the numeric keys with their
values. -/
structure RawSpec where
  base : ArrangementSpec
  subMoments : List (ℚ × ArrangementSpec) := []
  deriving DecidableEq

/-- The track record fields the resolver reads. -/
structure Track where
  ensemble : List (String × List String)
  timeline : List (TKey × RawSpec)
  standardSectionLength : Option ℚ := none
  deriving DecidableEq

/-- `this.trackData.timeline[sectionKey]` for `sectionKey = section<i>`. -/
def lookupSection (tl : List (TKey × RawSpec)) (i : ℕ) : Option RawSpec :=
  (tl.find? (fun p => p.1 = TKey.sec i)).map (·.2)

/-- The numeric-key entries of the raw timeline, as resolved entries with
no marker fields.  This is both the "copied verbatim" step of the
section branch and the observable content of the timeline when
`standardSectionLength` is falsy and the raw object is returned as-is
(section keys then parse to `NaN` times that no numeric query selects). -/
def rawResolved (track : Track) : List (ℚ × ResolvedArrangement) :=
  track.timeline.filterMap (fun p =>
    match p.1 with
    | TKey.num t =>
      some (t, ({ spec := p.2.base } : ResolvedArrangement))
    | TKey.sec _ => none)

/-- `explicitTimes.length > 0 ? Math.max(...explicitTimes) : 0`. -/
def maxExplicitTime (track : Track) : ℚ :=
  match track.timeline.filterMap (fun p =>
      match p.1 with
      | TKey.num t => some t
      | TKey.sec _ => none) with
  | [] => 0
  | t :: ts => ts.foldl max t

/-- The section loop of `processTimelineKeys`, over the index list
`[1, …, 20]` with the accumulating cursor.  Each present section first
writes its sub-moment entries (absolute times, base merged under the
sub-moment, marked `_isSubMoment`), then its base entry at the section
start time (cursor after adding the section's own `length` if present,
else `standardSectionLength`), marked `_isSectionStart`. -/
def sectionLoop (tl : List (TKey × RawSpec)) (std : ℚ) :
    List ℕ → ℚ → List (ℚ × ResolvedArrangement)
  | [], _ => []
  | i :: rest, accumulatedTime =>
    match lookupSection tl i with
    | none => sectionLoop tl std rest accumulatedTime
    | some sectionData =>
      let sectionLength := sectionData.base.length.getD std
      let sectionStartTime := accumulatedTime + sectionLength
      (sectionData.subMoments.map (fun pm =>
        (pm.1, ({ spec := mergeSpec sectionData.base pm.2,
                  isSubMoment := true } : ResolvedArrangement))))
      ++ [(sectionStartTime,
           ({ spec := sectionData.base,
              isSectionStart := true } : ResolvedArrangement))]
      ++ sectionLoop tl std rest sectionStartTime

/-- `processTimelineKeys()` as the ordered list of writes into the
`processed` object.  The JS guard `!this.trackData.standardSectionLength`
is truthiness: an absent *or zero* standard length returns the raw
timeline unprocessed. -/
def processTimelineKeys (track : Track) : List (ℚ × ResolvedArrangement) :=
  match track.standardSectionLength with
  | none => rawResolved track
  | some std =>
    if std = 0 then rawResolved track
    else
      rawResolved track
        ++ sectionLoop track.timeline std (List.range' 1 20)
             (maxExplicitTime track)

/-- The key set of a JS object built by a write list: later writes to the
same key overwrite earlier ones, so keep each key's last value. -/
def objEntries {α : Type} : List (ℚ × α) → List (ℚ × α)
  | [] => []
  | p :: rest =>
    if rest.any (fun q => q.1 = p.1) then objEntries rest
    else p :: objEntries rest

/-- Insertion step of the ascending time sort. -/
def insertByTime {α : Type} (p : ℚ × α) :
    List (ℚ × α) → List (ℚ × α)
  | [] => [p]
  | q :: rest =>
    if p.1 ≤ q.1 then p :: q :: rest else q :: insertByTime p rest

/-- `.sort((a, b) => a.time - b.time)` over unique keys. -/
def sortByTime {α : Type} (l : List (ℚ × α)) : List (ℚ × α) :=
  l.foldr insertByTime []

/-- Reading `processed[t]` from the finished object. -/
def timelineLookup {α : Type} (l : List (ℚ × α)) (t : ℚ) : Option α :=
  ((objEntries l).find? (fun p => p.1 = t)).map (·.2)

/-- The filter of `extractSongParts`:
`arrangement.part && (arrangement._isSectionStart || !arrangement._isSubMoment)`
(an empty-string part is falsy in JS and contributes nothing). -/
def partVisible (a : ResolvedArrangement) : Bool :=
  match a.spec.part with
  | some s => s ≠ "" && (a.isSectionStart || !a.isSubMoment)
  | none => false

/-- `extractSongParts()`: the `part` values of the processed timeline in
ascending time order, sub-moment-only entries skipped. -/
def extractSongParts (track : Track) : List String :=
  (sortByTime (objEntries (processTimelineKeys track))).filterMap
    (fun p => if partVisible p.2 then p.2.spec.part else none)

/-- Whether a raw entry's `musicians` map makes it moment-worthy: the
`band` shortcut says in/out, or otherwise some value of the map does. -/
def momentWorthy (spec : ArrangementSpec) : Bool :=
  match spec.musicians with
  | none => false
  | some musicians =>
    let band := lookupStr musicians "band"
    if band = some "in" || band = some "out" then true
    else musicians.any (fun p => p.2 = "in" || p.2 = "out")

/-- Ascending stable sort over rationals
(`momentTimes.sort((a, b) => a - b)`). -/
def sortAsc (l : List ℚ) : List ℚ :=
  List.insertionSort (· ≤ ·) l

/-- The `forEach` push loop of `extractMomentTimes`: every numeric-key
entry with `time > 0` contributes its time once for a moment-worthy
`musicians` map and once more for the legacy `detail: "band-in"` marker;
section keys parse to `NaN` times and satisfy neither `time > 0` test. -/
def collectMomentTimes : List (TKey × RawSpec) → List ℚ
  | [] => []
  | p :: rest =>
    (match p.1 with
      | TKey.sec _ => []
      | TKey.num time =>
        (if 0 < time ∧ momentWorthy p.2.base then [time] else [])
          ++ (if 0 < time ∧ p.2.base.detail = some "band-in" then [time]
              else []))
      ++ collectMomentTimes rest

/-- `extractMomentTimes()`: the collected moment times of the raw
timeline, sorted ascending. -/
def extractMomentTimes (track : Track) : List ℚ :=
  sortAsc (collectMomentTimes track.timeline)

/-- `initializeMusicianWeights()`: base weights `100, 110, 120, …` in
ensemble iteration order. -/
def initializeMusicianWeights (ensemble : List (String × List String)) :
    List (String × ℚ) :=
  ensemble.enum.map (fun p => (p.2.1, 100 + 10 * (p.1 : ℚ)))

/-- `calculatePickupWeight()`: find the most recent processed entry at or
before `currentTime` whose `soloist` is the musician with
`type: 'pick up'`; ramp the weight from 5 toward 2 over a five-second
window from that entry.  No such entry gives 5. -/
def calculatePickupWeight (track : Track) (musicianName : String)
    (currentTime : ℚ) : ℚ :=
  let timelineEntries :=
    (sortByTime (objEntries (processTimelineKeys track))).reverse
  match timelineEntries.find? (fun e =>
      decide (e.1 ≤ currentTime)
        && e.2.spec.soloist == some musicianName
        && e.2.spec.type == some "pick up") with
  | none => 5
  | some pickupStart =>
    let pickupDuration := currentTime - pickupStart.1
    let progressRatio := min (pickupDuration / 5) 1
    5 - progressRatio * 3

/-- The fall-through of `calculateDynamicWeight` once no (truthy) feature
scene applies: the `solo` check, the `pickup` check, the recent-soloist
list, then base weight pushed down by the list length. -/
def fallbackWeight (track : Track) (recentSoloists : List String)
    (arrangement : Option ArrangementSpec) (musicianName : String)
    (currentTime : ℚ) : ℚ :=
  if arrangement.bind (·.solo) = some musicianName then 1
  else if arrangement.bind (·.pickup) = some musicianName then
    calculatePickupWeight track musicianName currentTime
  else
    match recentSoloists.indexOf? musicianName with
    | some recentSoloistIndex => 10 + (recentSoloistIndex : ℚ)
    | none =>
      (lookupStr (initializeMusicianWeights track.ensemble)
          musicianName).getD 0
        + (recentSoloists.length : ℚ) * 5

/-- The scene switch of `calculateDynamicWeight`. -/
def sceneWeightOf (track : Track) (musicianName : String)
    (currentTime : ℚ) (sc : String) : ℚ :=
  if sc = "lead" then 1
  else if sc = "pickup" then
    calculatePickupWeight track musicianName currentTime
  else if sc = "cooldown" then 5
  else if sc = "harmony" then 7
  else if sc = "rhythm" then 8
  else 6

/-- `calculateDynamicWeight()`.  The JS reads
`features ? features[musicianName] : null` and branches on the scene's
truthiness, so an empty-string scene falls through like an absent one.
A musician missing from the ensemble has no base weight (JS `undefined`,
giving `NaN` on the final branch); the embedding defaults that base to 0
and every theorem touching the final branch assumes ensemble
membership. -/
def calculateDynamicWeight (track : Track) (recentSoloists : List String)
    (arrangement : Option ArrangementSpec) (musicianName : String)
    (currentTime : ℚ) : ℚ :=
  let features := arrangement.bind (·.feature)
  match features.bind (fun f => lookupStr f musicianName) with
  | some musicianScene =>
    if musicianScene = "" then
      fallbackWeight track recentSoloists arrangement musicianName
        currentTime
    else sceneWeightOf track musicianName currentTime musicianScene
  | none =>
    fallbackWeight track recentSoloists arrangement musicianName
      currentTime

/-- The `momentsNotYetReached` bucket of `checkForMoments`:
`secondsSinceMoment < 0`. -/
def momentsFuture (pending : List ℚ) (currentTime : ℚ) : List ℚ :=
  pending.filter (fun m => currentTime - m < 0)

/-- The `momentsToTrigger` bucket: not future and
`secondsSinceMoment <= 1`. -/
def momentsDue (pending : List ℚ) (currentTime : ℚ) : List ℚ :=
  pending.filter (fun m =>
    ¬currentTime - m < 0 ∧ currentTime - m ≤ 1)

/-- One polling tick of `checkForMoments(currentTime)`: the new
`upcomingMomentTimes` (only the future bucket survives; the due and the
missed buckets are both removed) together with the moments handed to
`triggerMoment` this tick.  `triggerMoment` only dispatches visual
flashes and never alters the pending list. -/
def checkForMoments (pending : List ℚ) (currentTime : ℚ) :
    List ℚ × List ℚ :=
  (momentsFuture pending currentTime, momentsDue pending currentTime)

/-- The pending list after a sequence of polling ticks. -/
def pendingAfter : List ℚ → List ℚ → List ℚ
  | pending, [] => pending
  | pending, t :: ts => pendingAfter (checkForMoments pending t).1 ts

/-- A whole polling run: for each tick time, the moments fired there. -/
def runFired : List ℚ → List ℚ → List (ℚ × List ℚ)
  | _, [] => []
  | pending, t :: ts =>
    (t, (checkForMoments pending t).2)
      :: runFired (checkForMoments pending t).1 ts

/-- All moments fired anywhere in a polling run, in firing order. -/
def firedTimes (pending ticks : List ℚ) : List ℚ :=
  (runFired pending ticks).foldr (fun pr acc => pr.2 ++ acc) []

/-! ## Spec-side definitions (refinement targets) -/

/-- The effective length the loop consumes for section index `j`: the
section's own `length` field if present, else the standard length; `0`
when the section key is absent (the loop skips it). -/
def sectionLen (tl : List (TKey × RawSpec)) (std : ℚ) (j : ℕ) : ℚ :=
  match lookupSection tl j with
  | some sd => sd.base.length.getD std
  | none => 0

/-- Modelled from the spec's accumulation description: `cursor` starts
at the maximum explicit time (or 0) and, for `section1..sectionN` in
order, grows by each section's own length if present, else the standard
length; a section's start time is the cursor after its increase. -/
def claimSectionStart (track : Track) (std : ℚ) (i : ℕ) : ℚ :=
  maxExplicitTime track
    + ((List.range' 1 i).map (sectionLen track.timeline std)).sum

/-- Modelled from the spec's wording for `getSongParts()`: part labels in
ascending time order, where an entry's label is *excluded when the entry
is a sub-moment unless it is also marked a section start*. -/
def specSongParts (track : Track) : List String :=
  (sortByTime (objEntries (processTimelineKeys track))).filterMap
    (fun p =>
      match p.2.spec.part with
      | some s =>
        if s ≠ "" && !(p.2.isSubMoment && !p.2.isSectionStart) then some s
        else none
      | none => none)

/-! ## Example data used by concrete parts and witnesses -/

/-- A three-song catalog `{a, b, c}`. -/
def exCatalog : Catalog := [("a", "A"), ("b", "B"), ("c", "C")]

/-- Discovery state with `playedSongs = {a}` and current song `b`. -/
def exStC3 : RHState :=
  { initialState with playedSongs := ["a"], currentSongSlug := some "b" }

/-- A state with a current song but no pending `nextSong`
recommendation. -/
def exStNoNext : RHState :=
  { initialState with currentSongSlug := some "a" }

/-- A state with a current song, a pending recommendation and nothing
played. -/
def exStWithNext : RHState :=
  { initialState with
    currentSongSlug := some "a"
    nextSong := some { songSlug := some "c", songTitle := "C",
                       viaMusician := "alice" } }

/-- The sentinel `{songSlug: null, songTitle: 'No songs queued',
viaMusician}` value. -/
def noSongsQueued (name : String) : SongRef :=
  { songSlug := none, songTitle := "No songs queued", viaMusician := name }

/-- State exercising every persisted field for the C8 counterexample. -/
def exStC8 : RHState :=
  { initialState with
    followingMusician := some "alice"
    playedSongs := ["a"]
    currentSongSlug := some "a"
    followMode := "random" }

/-- The spec's section-accumulation example: `standardSectionLength=30`,
one explicit entry at `t=10`, and `section1`, `section2` with no
overrides. -/
def exTrackC1 : Track :=
  { ensemble := [("alice", ["fiddle"]), ("bob", ["banjo"])]
    timeline := [(TKey.num 10, { base := { solo := some "alice" } }),
                 (TKey.sec 1, { base := { part := some "verse" } }),
                 (TKey.sec 2, { base := { part := some "chorus" } })]
    standardSectionLength := some 30 }

/-- A track whose `section1` carries a numeric sub-moment key at `55`
overriding `part` and adding `pickup`, with base fields inherited. -/
def exTrackC2 : Track :=
  { ensemble := [("alice", ["fiddle"]), ("bob", ["banjo"])]
    timeline :=
      [(TKey.num 10, { base := { solo := some "alice" } }),
       (TKey.sec 1,
        { base := { part := some "verse", solo := some "alice" }
          subMoments :=
            [(55, { part := some "fill", pickup := some "bob" })] })]
    standardSectionLength := some 30 }

/-- A track whose `standardSectionLength` is present but `0`: the JS
truthiness guard `!this.trackData.standardSectionLength` then takes the
as-is branch and no section is resolved. -/
def exTrackC1zero : Track :=
  { ensemble := [("alice", ["fiddle"])]
    timeline := [(TKey.sec 1, { base := { part := some "verse" } })]
    standardSectionLength := some 0 }

/-- A two-musician track for the weight-ordering counterexample. -/
def exTrackC9 : Track :=
  { ensemble := [("m", ["guitar"]), ("s", ["banjo"])]
    timeline := []
    standardSectionLength := none }

/-- An arrangement naming its featured musician only through the
`soloist` key. -/
def exArrC9 : ArrangementSpec := { soloist := some "s" }

/-- An arrangement naming its featured musician through the `solo` key,
as the weight computation expects. -/
def exArrC9solo : ArrangementSpec := { solo := some "s" }

/-! ## Helper lemmas -/

/-- Membership in a JS `Set` built from a list: the element occurs in the
list and was not already seen. -/
theorem mem_jsSetAux (l : List String) (seen : List String) (x : String) :
    x ∈ jsSetAux seen l ↔ x ∈ l ∧ x ∉ seen := by
  induction l generalizing seen with
  | nil => simp [jsSetAux]
  | cons s rest ih =>
    by_cases hs : seen.contains s
    · have hmem : s ∈ seen := by simpa using hs
      simp only [jsSetAux, hs, if_pos]
      rw [ih]
      constructor
      · rintro ⟨hx, hxs⟩
        exact ⟨List.mem_cons_of_mem _ hx, hxs⟩
      · rintro ⟨hx, hxs⟩
        rcases List.mem_cons.mp hx with h | h
        · exact absurd (h ▸ hmem) hxs
        · exact ⟨h, hxs⟩
    · simp only [jsSetAux, hs, if_neg, Bool.false_eq_true, not_false_iff]
      constructor
      · intro hx
        rcases List.mem_cons.mp hx with h | h
        · subst h
          refine ⟨List.mem_cons_self _ _, ?_⟩
          simpa using hs
        · rcases (ih _).mp h with ⟨h1, h2⟩
          refine ⟨List.mem_cons_of_mem _ h1, fun hc => h2 ?_⟩
          exact List.mem_cons_of_mem _ hc
      · rintro ⟨hx, hxs⟩
        rcases List.mem_cons.mp hx with h | h
        · subst h; exact List.mem_cons_self _ _
        · by_cases hxe : x = s
          · subst hxe; exact List.mem_cons_self _ _
          · refine List.mem_cons_of_mem _ ((ih _).mpr ⟨h, ?_⟩)
            intro hc
            rcases List.mem_cons.mp hc with h' | h'
            · exact hxe h'
            · exact hxs h'

/-- `Set.add` makes the element a member. -/
theorem contains_addToSet (l : List String) (s : String) :
    (addToSet l s).contains s = true := by
  by_cases h : s ∈ l <;> simp [addToSet, h]

/-- Deleting a slug from the played set really removes it. -/
theorem contains_filter_ne (l : List String) (s : String) :
    (l.filter (fun x => x ≠ s)).contains s = false := by
  induction l with
  | nil => rfl
  | cons a t ih =>
    by_cases h : a = s
    · simp_all [List.filter_cons, h]
    · simp_all [List.filter_cons, h]
      exact fun hh => h hh.symm

/-! ## Claims about the discovery state machine -/

/-- C3 — Discovery selection soundness: whenever
`queueNextSongByMusician` receives a non-empty filtered candidate pool,
the single queued slug is in the catalog, unplayed, and differs from the
current song; and on catalog `{a,b,c}` with `playedSongs={a}`,
`currentSongSlug=b`, connections `[a,b,c]`, every random draw selects
`c`. -/
theorem c3_discovery_selection_sound :
    (∀ (catalog : Catalog) (st : RHState) (name : String)
        (conns : List String) (r : ℕ),
      conns.filter (isPlayableConn catalog st) ≠ [] →
      ∃ s : String,
        (queueNextSongByMusician catalog st name (some conns) r).1.queue
            = [s] ∧
        (queueNextSongByMusician catalog st name (some conns) r).1.nextSong
            = some { songSlug := some s,
                     songTitle := (lookupCatalog catalog s).getD s,
                     viaMusician := name } ∧
        (lookupCatalog catalog s).isSome = true ∧
        st.playedSongs.contains s = false ∧
        some s ≠ st.currentSongSlug) ∧
    (∀ r : ℕ,
      (queueNextSongByMusician exCatalog exStC3 "alice"
          (some ["a", "b", "c"]) r).1.queue = ["c"]) := by
  constructor
  · intro catalog st name conns r hne
    set playable := conns.filter (isPlayableConn catalog st) with hp
    have hlen : playable.length ≠ 0 := by
      simpa [List.length_eq_zero] using hne
    have hidx : r % playable.length < playable.length :=
      Nat.mod_lt _ (Nat.pos_of_ne_zero hlen)
    set chosen := playable.getD (r % playable.length) "" with hc
    have hmem : chosen ∈ playable := by
      rw [hc, List.getD_eq_getElem?_getD, List.getElem?_eq_getElem hidx]
      exact List.getElem_mem _
    have hpred : isPlayableConn catalog st chosen = true :=
      List.of_mem_filter (hp ▸ hmem)
    have h3 : (lookupCatalog catalog (normalizeSlug chosen)).isSome = true
        ∧ st.playedSongs.contains (normalizeSlug chosen) = false
        ∧ some (normalizeSlug chosen) ≠ st.currentSongSlug := by
      unfold isPlayableConn at hpred
      simp only [Bool.and_eq_true, decide_eq_true_eq,
        Bool.not_eq_true'] at hpred
      exact ⟨hpred.1.1, hpred.1.2, hpred.2⟩
    refine ⟨normalizeSlug chosen, ?_, ?_, h3.1, h3.2.1, h3.2.2⟩
    · simp only [queueNextSongByMusician, ← hp, if_neg hlen]
    · simp only [queueNextSongByMusician, ← hp, if_neg hlen]
      have htitle :
          (lookupCatalog catalog (normalizeSlug chosen)).getD chosen
            = (lookupCatalog catalog (normalizeSlug chosen)).getD
                (normalizeSlug chosen) := by
        rcases hopt : lookupCatalog catalog (normalizeSlug chosen) with
          _ | t
        · rw [hopt] at h3
          simp at h3
        · rfl
      simp only [← hc]
      rw [htitle]
  · intro r
    have hfilter : (["a", "b", "c"].filter
        (isPlayableConn exCatalog exStC3)) = ["c"] := by decide
    have hr : r % 1 = 0 := Nat.mod_one r
    simp only [queueNextSongByMusician, hfilter, List.length_singleton, hr]
    norm_num
    decide

/-- Witness for C3 at a concrete state and draw. -/
theorem c3_discovery_selection_sound_witness :
    ∃ s : String,
      (queueNextSongByMusician exCatalog exStC3 "alice"
          (some ["a", "b", "c"]) 7).1.queue = [s] ∧
      (queueNextSongByMusician exCatalog exStC3 "alice"
          (some ["a", "b", "c"]) 7).1.nextSong
          = some { songSlug := some s,
                   songTitle := (lookupCatalog exCatalog s).getD s,
                   viaMusician := "alice" } ∧
      (lookupCatalog exCatalog s).isSome = true ∧
      exStC3.playedSongs.contains s = false ∧
      some s ≠ exStC3.currentSongSlug :=
  c3_discovery_selection_sound.1 exCatalog exStC3 "alice" ["a", "b", "c"]
    7 (by decide)

/-- C7 counterexample — with no connections data the call returns
silently: the observer is not invoked and `nextSong` is left unset, not
set to the sentinel the claim requires. -/
theorem c7_counterexample :
    (queueNextSongByMusician exCatalog initialState "alice" none 0).2
        = none ∧
    ((queueNextSongByMusician exCatalog initialState "alice" none
        0).1).nextSong = none := by
  exact ⟨rfl, rfl⟩

/-- C7 (amended) — No-candidate sentinel with notification: when a
connections list was received (possibly empty) and every candidate is
filtered out, `nextSong` becomes the sentinel with a null `songSlug` and
the observer is invoked with that sentinel; when the connections lookup
yields no data the call returns without touching `nextSong` and without
notifying. -/
theorem c7_no_candidate_sentinel :
    (∀ (catalog : Catalog) (st : RHState) (name : String)
        (conns : List String) (r : ℕ),
      conns.filter (isPlayableConn catalog st) = [] →
      (noSongsQueued name).songSlug = none ∧
      queueNextSongByMusician catalog st name (some conns) r
        = ({ st with nextSong := some (noSongsQueued name) },
           some (noSongsQueued name))) ∧
    (∀ (catalog : Catalog) (st : RHState) (name : String) (r : ℕ),
      queueNextSongByMusician catalog st name none r = (st, none)) := by
  constructor
  · intro catalog st name conns r h
    refine ⟨rfl, ?_⟩
    simp only [queueNextSongByMusician, h]
    rfl
  · intro catalog st name r
    rfl

/-- Witness for C7: on catalog `{a,b,c}` with `a` played and `b`
current, the connections `[a, b]` all filter out and the sentinel is
queued and notified. -/
theorem c7_no_candidate_sentinel_witness :
    (noSongsQueued "alice").songSlug = none ∧
    queueNextSongByMusician exCatalog exStC3 "alice" (some ["a", "b"]) 3
      = ({ exStC3 with nextSong := some (noSongsQueued "alice") },
         some (noSongsQueued "alice")) :=
  c7_no_candidate_sentinel.1 exCatalog exStC3 "alice" ["a", "b"] 3
    (by decide)

/-- C4 counterexample — with a current song set but no `nextSong`
recommendation, `setCurrentSong` pushes no history entry, so the
subsequent `goBack` returns nothing and the previous song `a` stays in
`playedSongs`, hence unplayable. -/
theorem c4_counterexample :
    (goBack (setCurrentSong exCatalog exStNoNext "b")).1 = none ∧
    isPlayable exCatalog
      (goBack (setCurrentSong exCatalog exStNoNext "b")).2 "a"
        = false := by
  exact ⟨rfl, rfl⟩

/-- C4 (amended) — History/back round trip: when a current song `x0` and
a `nextSong` recommendation are both set, `x0` is in the catalog and
differs from the new current song `x`, then `setCurrentSong x` followed
by `goBack` returns the history entry for `x0`, removes `x0` from
`playedSongs`, and makes `isPlayable x0` true again. -/
theorem c4_history_back_round_trip (catalog : Catalog) (st : RHState)
    (x0 x title : String) (ns : SongRef)
    (hcur : st.currentSongSlug = some x0)
    (hns : st.nextSong = some ns)
    (hcat : lookupCatalog catalog x0 = some title)
    (hne : x0 ≠ x) :
    (goBack (setCurrentSong catalog st x)).1
        = some ⟨some x0, title, ns.viaMusician⟩ ∧
    (goBack (setCurrentSong catalog st x)).2.playedSongs.contains x0
        = false ∧
    isPlayable catalog (goBack (setCurrentSong catalog st x)).2 x0
        = true := by
  have hset : setCurrentSong catalog st x
      = { st with
          history := st.history ++ [⟨some x0, title, ns.viaMusician⟩]
          playedSongs := addToSet st.playedSongs x0
          currentSongSlug := some x } := by
    simp only [setCurrentSong, hcur, hns, hcat]
  rw [hset]
  have hlast : (st.history ++
        [(⟨some x0, title, ns.viaMusician⟩ : SongRef)]).getLast?
      = some (⟨some x0, title, ns.viaMusician⟩ : SongRef) := by
    exact List.getLast?_concat _
  simp only [goBack, hlast]
  refine ⟨trivial, contains_filter_ne _ _, ?_⟩
  unfold isPlayable
  simp [hcat, contains_filter_ne, hne]

/-- Witness for C4 at a concrete state with a pending recommendation. -/
theorem c4_history_back_round_trip_witness :
    (goBack (setCurrentSong exCatalog exStWithNext "b")).1
        = some ⟨some "a", "A", "alice"⟩ ∧
    ((goBack (setCurrentSong exCatalog exStWithNext
        "b")).2.playedSongs).contains "a" = false ∧
    isPlayable exCatalog
      (goBack (setCurrentSong exCatalog exStWithNext "b")).2 "a"
        = true :=
  c4_history_back_round_trip exCatalog exStWithNext "a" "b" "A"
    ⟨some "c", "C", "alice"⟩ rfl rfl (by decide) (by decide)

/-- C10 — Implicit history gap: `setCurrentSong` always adds the
previous current song to `playedSongs`, but appends a history entry only
when `nextSong` is set and the catalog holds the previous slug; so (last
conjunct, at a state with no recommendation) the played set grows while
history stays empty, leaving the song unplayable yet unreachable via
`goBack`. -/
theorem c10_played_grows_without_history (catalog : Catalog)
    (st : RHState) (x0 x : String)
    (hcur : st.currentSongSlug = some x0) :
    ((setCurrentSong catalog st x).playedSongs.contains x0 = true) ∧
    ((setCurrentSong catalog st x).history
      = st.history ++
          (match st.nextSong, lookupCatalog catalog x0 with
            | some ns, some title =>
              [⟨some x0, title, ns.viaMusician⟩]
            | _, _ => [])) ∧
    ((goBack (setCurrentSong exCatalog exStNoNext "b")).1 = none ∧
      (setCurrentSong exCatalog exStNoNext "b").history = [] ∧
      (setCurrentSong exCatalog exStNoNext "b").playedSongs = ["a"] ∧
      isPlayable exCatalog (setCurrentSong exCatalog exStNoNext "b") "a"
          = false) := by
  refine ⟨?_, ?_, rfl, rfl, rfl, rfl⟩
  · rcases hns2 : st.nextSong with _ | ns
    · simp only [setCurrentSong, hcur, hns2]
      exact contains_addToSet _ _
    · rcases hcat2 : lookupCatalog catalog x0 with _ | title
      · simp only [setCurrentSong, hcur, hns2, hcat2]
        exact contains_addToSet _ _
      · simp only [setCurrentSong, hcur, hns2, hcat2]
        exact contains_addToSet _ _
  · rcases hns2 : st.nextSong with _ | ns
    · simp [setCurrentSong, hcur, hns2]
    · rcases hcat2 : lookupCatalog catalog x0 with _ | title
      · simp [setCurrentSong, hcur, hns2, hcat2]
      · simp [setCurrentSong, hcur, hns2, hcat2]

/-- Witness for C10 at a concrete state with a recommendation pending. -/
theorem c10_played_grows_without_history_witness :
    ((setCurrentSong exCatalog exStWithNext "b").playedSongs.contains "a"
        = true) ∧
    ((setCurrentSong exCatalog exStWithNext "b").history
      = [] ++
          (match exStWithNext.nextSong, lookupCatalog exCatalog "a" with
            | some ns, some title =>
              [⟨some "a", title, ns.viaMusician⟩]
            | _, _ => [])) ∧
    ((goBack (setCurrentSong exCatalog exStNoNext "b")).1 = none ∧
      (setCurrentSong exCatalog exStNoNext "b").history = [] ∧
      (setCurrentSong exCatalog exStNoNext "b").playedSongs = ["a"] ∧
      isPlayable exCatalog (setCurrentSong exCatalog exStNoNext "b") "a"
          = false) :=
  c10_played_grows_without_history exCatalog exStWithNext "a" "b" rfl

/-- C8 counterexample — saving and then constructing a fresh state does
not restore `followingMusician` or `currentSongSlug`: both come back
`null` although non-null values were saved. -/
theorem c8_counterexample :
    (newRabbitholeState (some (saveToStorage exStC8))).followingMusician
        = none ∧
    exStC8.followingMusician = some "alice" ∧
    (newRabbitholeState (some (saveToStorage exStC8))).currentSongSlug
        = none ∧
    exStC8.currentSongSlug = some "a" := by
  exact ⟨rfl, rfl, rfl, rfl⟩

/-- C8 (amended) — Persistence round trip: `saveToStorage` writes
exactly the four fields `followingMusician`, `playedSongs`,
`currentSongSlug`, `followMode` under the one key, but rehydration
restores only `playedSongs` (as a set) and `followMode` (with the
empty-string fallback); `followingMusician` and `currentSongSlug` are
left at their initial null values despite being saved. -/
theorem c8_persistence_partial_round_trip (st : RHState) :
    saveToStorage st
      = ⟨st.followingMusician, st.playedSongs, st.currentSongSlug,
         st.followMode⟩ ∧
    (∀ x, x ∈ (newRabbitholeState (some (saveToStorage st))).playedSongs
        ↔ x ∈ st.playedSongs) ∧
    (newRabbitholeState (some (saveToStorage st))).followMode
      = (if st.followMode = "" then "same" else st.followMode) ∧
    (newRabbitholeState (some (saveToStorage st))).followingMusician
      = none ∧
    (newRabbitholeState (some (saveToStorage st))).currentSongSlug
      = none := by
  refine ⟨rfl, ?_, rfl, rfl, rfl⟩
  intro x
  simp [newRabbitholeState, saveToStorage, mem_jsSetAux]

/-! ## Timeline resolver lemmas -/

/-- Unfolding `processTimelineKeys` when the standard length is truthy. -/
theorem processTimelineKeys_some (track : Track) (std : ℚ)
    (h : track.standardSectionLength = some std) (h0 : std ≠ 0) :
    processTimelineKeys track
      = rawResolved track
        ++ sectionLoop track.timeline std (List.range' 1 20)
             (maxExplicitTime track) := by
  simp only [processTimelineKeys, h, if_neg h0]

/-- The loop step for a present section. -/
theorem sectionLoop_cons_some (tl : List (TKey × RawSpec)) (std : ℚ)
    (j : ℕ) (rest : List ℕ) (c : ℚ) (sd : RawSpec)
    (h : lookupSection tl j = some sd) :
    sectionLoop tl std (j :: rest) c
      = (sd.subMoments.map (fun pm =>
          (pm.1, ({ spec := mergeSpec sd.base pm.2,
                    isSubMoment := true } : ResolvedArrangement))))
        ++ [(c + sd.base.length.getD std,
             ({ spec := sd.base,
                isSectionStart := true } : ResolvedArrangement))]
        ++ sectionLoop tl std rest (c + sd.base.length.getD std) := by
  simp only [sectionLoop, h]

/-- The loop step for an absent section index. -/
theorem sectionLoop_cons_none (tl : List (TKey × RawSpec)) (std : ℚ)
    (j : ℕ) (rest : List ℕ) (c : ℚ)
    (h : lookupSection tl j = none) :
    sectionLoop tl std (j :: rest) c = sectionLoop tl std rest c := by
  simp only [sectionLoop, h]

/-- A run of absent section indices contributes nothing. -/
theorem sectionLoop_absent_nil (tl : List (TKey × RawSpec)) (std : ℚ)
    (is : List ℕ) (c : ℚ)
    (h : ∀ i ∈ is, lookupSection tl i = none) :
    sectionLoop tl std is c = [] := by
  induction is generalizing c with
  | nil => rfl
  | cons j rest ih =>
    rw [sectionLoop_cons_none tl std j rest c
      (h j (List.mem_cons_self _ _))]
    exact ih _ (fun i hi => h i (List.mem_cons_of_mem _ hi))

/-- `sectionLen` at a present section. -/
theorem sectionLen_some (tl : List (TKey × RawSpec)) (std : ℚ) (j : ℕ)
    (sd : RawSpec) (h : lookupSection tl j = some sd) :
    sectionLen tl std j = sd.base.length.getD std := by
  simp [sectionLen, h]

/-- `sectionLen` at an absent section. -/
theorem sectionLen_none (tl : List (TKey × RawSpec)) (std : ℚ) (j : ℕ)
    (h : lookupSection tl j = none) :
    sectionLen tl std j = 0 := by
  simp [sectionLen, h]

/-- The loop writes each present section's base entry at the cursor
advanced by the accumulated effective lengths up to that section. -/
theorem sectionLoop_start_mem (tl : List (TKey × RawSpec)) (std : ℚ)
    (i : ℕ) (sd : RawSpec) (is₁ is₂ : List ℕ) (c : ℚ)
    (h : lookupSection tl i = some sd) :
    (c + ((is₁ ++ [i]).map (sectionLen tl std)).sum,
      ({ spec := sd.base, isSectionStart := true } : ResolvedArrangement))
      ∈ sectionLoop tl std (is₁ ++ i :: is₂) c := by
  induction is₁ generalizing c with
  | nil =>
    rw [List.nil_append, sectionLoop_cons_some tl std i is₂ c sd h]
    simp [sectionLen_some tl std i sd h]
  | cons j rest ih =>
    rcases hj : lookupSection tl j with _ | sdj
    · rw [List.cons_append, sectionLoop_cons_none tl std j _ c hj]
      have := ih c
      simpa [sectionLen_none tl std j hj] using this
    · rw [List.cons_append, sectionLoop_cons_some tl std j _ c sdj hj]
      refine List.mem_append_right _ ?_
      have := ih (c + sdj.base.length.getD std)
      simpa [sectionLen_some tl std j sdj hj, add_assoc] using this

/-- The loop writes each sub-moment of each present section at its
absolute time, merged under the base and marked `_isSubMoment`. -/
theorem sectionLoop_sub_mem (tl : List (TKey × RawSpec)) (std : ℚ)
    (i : ℕ) (sd : RawSpec) (t : ℚ) (m : ArrangementSpec)
    (is₁ is₂ : List ℕ) (c : ℚ)
    (h : lookupSection tl i = some sd) (hm : (t, m) ∈ sd.subMoments) :
    (t, ({ spec := mergeSpec sd.base m,
           isSubMoment := true } : ResolvedArrangement))
      ∈ sectionLoop tl std (is₁ ++ i :: is₂) c := by
  induction is₁ generalizing c with
  | nil =>
    rw [List.nil_append, sectionLoop_cons_some tl std i is₂ c sd h]
    refine List.mem_append_left _ (List.mem_append_left _ ?_)
    exact List.mem_map.mpr ⟨(t, m), hm, rfl⟩
  | cons j rest ih =>
    rcases hj : lookupSection tl j with _ | sdj
    · rw [List.cons_append, sectionLoop_cons_none tl std j _ c hj]
      exact ih c
    · rw [List.cons_append, sectionLoop_cons_some tl std j _ c sdj hj]
      exact List.mem_append_right _ (ih _)

/-- Splitting the fixed 20-iteration index range at a chosen index. -/
theorem range'_split_at (i : ℕ) (h1 : 1 ≤ i) (h2 : i ≤ 20) :
    List.range' 1 20
      = List.range' 1 (i - 1) ++ i :: List.range' (i + 1) (20 - i) := by
  have e1 : List.range' 1 (i - 1) ++ List.range' (1 + (i - 1)) (21 - i)
      = List.range' 1 ((21 - i) + (i - 1)) := by
    simp [List.range'_append]
  have h3 : 1 + (i - 1) = i := by omega
  have h4 : (21 - i) + (i - 1) = 20 := by omega
  have h5 : 21 - i = (20 - i) + 1 := by omega
  rw [h3, h4] at e1
  rw [← e1, h5, List.range'_succ]

/-- The range `[1..i]` grown one step at the right. -/
theorem range'_one_concat (i : ℕ) (h1 : 1 ≤ i) :
    List.range' 1 (i - 1) ++ [i] = List.range' 1 i := by
  have h : List.range' 1 ((i - 1) + 1)
      = List.range' 1 (i - 1) ++ [1 + 1 * (i - 1)] :=
    List.range'_concat 1 (i - 1)
  have h2 : (i - 1) + 1 = i := by omega
  have h3 : 1 + 1 * (i - 1) = i := by omega
  rw [h2, h3] at h
  exact h.symm

/-- Present section of the C1 example track at index 1. -/
theorem exTrackC1_sec1 : lookupSection exTrackC1.timeline 1
    = some { base := { part := some "verse" } } := by decide

/-- Present section of the C1 example track at index 2. -/
theorem exTrackC1_sec2 : lookupSection exTrackC1.timeline 2
    = some { base := { part := some "chorus" } } := by decide

/-- All further section indices of the C1 example track are absent. -/
theorem exTrackC1_secRest :
    ∀ j ∈ List.range' 3 18, lookupSection exTrackC1.timeline j = none := by
  decide

/-- Maximum explicit time of the C1 example track. -/
theorem exTrackC1_max : maxExplicitTime exTrackC1 = 10 := by decide

/-- Full evaluation of the C1 example track's processed timeline. -/
theorem exTrackC1_processed :
    processTimelineKeys exTrackC1
      = [(10, { spec := { solo := some "alice" } }),
         (40, { spec := { part := some "verse" }, isSectionStart := true }),
         (70, { spec := { part := some "chorus" },
                isSectionStart := true })] := by
  have hr : List.range' 1 20 = 1 :: 2 :: List.range' 3 18 := by
    rw [List.range'_succ, List.range'_succ]
  rw [processTimelineKeys_some exTrackC1 30 rfl (by norm_num), hr,
      sectionLoop_cons_some _ _ _ _ _ _ exTrackC1_sec1,
      sectionLoop_cons_some _ _ _ _ _ _ exTrackC1_sec2,
      sectionLoop_absent_nil _ _ _ _ exTrackC1_secRest, exTrackC1_max]
  norm_num [rawResolved, exTrackC1, List.filterMap, Option.getD]

/-- C1 counterexample — `standardSectionLength` present but `0`: the
claim requires `section1` to be placed at the accumulated cursor
(`0 + 0 = 0`), but the truthiness guard returns the raw timeline and no
entry at all is resolved for the section. -/
theorem c1_counterexample :
    exTrackC1zero.standardSectionLength = some 0 ∧
    lookupSection exTrackC1zero.timeline 1
      = some { base := { part := some "verse" } } ∧
    processTimelineKeys exTrackC1zero = [] := by
  exact ⟨rfl, by decide, by decide⟩

/-- C1 (amended) — Section start-time accumulation: with a present, nonzero
`standardSectionLength`, every present section `section<i>` (`1 ≤ i ≤
20`) has its base entry written at `claimSectionStart` — the maximum
explicit time advanced by each preceding present section's own `length`
or the standard length, plus its own — and on the spec's example track
the resolved section-start times are `40` and `70`. -/
theorem c1_section_start_accumulation :
    (∀ (track : Track) (std : ℚ) (i : ℕ) (sd : RawSpec),
      track.standardSectionLength = some std → std ≠ 0 →
      1 ≤ i → i ≤ 20 →
      lookupSection track.timeline i = some sd →
      (claimSectionStart track std i,
        ({ spec := sd.base,
           isSectionStart := true } : ResolvedArrangement))
        ∈ processTimelineKeys track) ∧
    claimSectionStart exTrackC1 30 1 = 40 ∧
    claimSectionStart exTrackC1 30 2 = 70 ∧
    timelineLookup (processTimelineKeys exTrackC1) 40
      = some { spec := { part := some "verse" },
               isSectionStart := true } ∧
    timelineLookup (processTimelineKeys exTrackC1) 70
      = some { spec := { part := some "chorus" },
               isSectionStart := true } := by
  refine ⟨?_, ?_, ?_, ?_, ?_⟩
  · intro track std i sd hstd h0 h1 h20 hsec
    rw [processTimelineKeys_some track std hstd h0,
        range'_split_at i h1 h20]
    refine List.mem_append_right _ ?_
    have hmem := sectionLoop_start_mem track.timeline std i sd
      (List.range' 1 (i - 1)) (List.range' (i + 1) (20 - i))
      (maxExplicitTime track) hsec
    rw [range'_one_concat i h1] at hmem
    exact hmem
  · norm_num [claimSectionStart, exTrackC1_max, List.range', Option.getD,
      sectionLen_some exTrackC1.timeline 30 1 _ exTrackC1_sec1]
  · norm_num [claimSectionStart, exTrackC1_max, List.range', Option.getD,
      sectionLen_some exTrackC1.timeline 30 1 _ exTrackC1_sec1,
      sectionLen_some exTrackC1.timeline 30 2 _ exTrackC1_sec2]
  · rw [exTrackC1_processed]
    decide
  · rw [exTrackC1_processed]
    decide

/-- Witness for C1: section 2 of the example track is written at its
accumulated start time. -/
theorem c1_section_start_accumulation_witness :
    (claimSectionStart exTrackC1 30 2,
      ({ spec := { part := some "chorus" },
         isSectionStart := true } : ResolvedArrangement))
      ∈ processTimelineKeys exTrackC1 :=
  c1_section_start_accumulation.1 exTrackC1 30 2
    { base := { part := some "chorus" } } rfl (by norm_num) (by norm_num)
    (by norm_num) exTrackC1_sec2

/-- The code's song-part filter equals the spec's phrasing: a part label
is kept unless its entry is a sub-moment that is not also a section
start. -/
theorem extractSongParts_eq_spec (track : Track) :
    extractSongParts track = specSongParts track := by
  unfold extractSongParts specSongParts
  congr 1
  funext p
  rcases p with ⟨t, a⟩
  rcases a with ⟨spec, ss, sm⟩
  rcases hp : spec.part with _ | s
  · simp [partVisible, hp]
  · cases ss <;> cases sm <;> simp [partVisible, hp]

/-- Present section of the C2 example track at index 1. -/
theorem exTrackC2_sec1 : lookupSection exTrackC2.timeline 1
    = some { base := { part := some "verse", solo := some "alice" }
             subMoments :=
               [(55, { part := some "fill", pickup := some "bob" })] } := by
  decide

/-- All further section indices of the C2 example track are absent. -/
theorem exTrackC2_secRest :
    ∀ j ∈ List.range' 2 19, lookupSection exTrackC2.timeline j = none := by
  decide

/-- Maximum explicit time of the C2 example track. -/
theorem exTrackC2_max : maxExplicitTime exTrackC2 = 10 := by decide

/-- Full evaluation of the C2 example track's processed timeline. -/
theorem exTrackC2_processed :
    processTimelineKeys exTrackC2
      = [(10, { spec := { solo := some "alice" } }),
         (55, { spec := { part := some "fill", solo := some "alice",
                          pickup := some "bob" },
                isSubMoment := true }),
         (40, { spec := { part := some "verse", solo := some "alice" },
                isSectionStart := true })] := by
  have hr : List.range' 1 20 = 1 :: List.range' 2 19 := by
    rw [List.range'_succ]
  rw [processTimelineKeys_some exTrackC2 30 rfl (by norm_num), hr,
      sectionLoop_cons_some _ _ _ _ _ _ exTrackC2_sec1,
      sectionLoop_absent_nil _ _ _ _ exTrackC2_secRest, exTrackC2_max]
  norm_num [rawResolved, exTrackC2, List.filterMap, Option.getD,
    mergeSpec, mergeField]

/-- C2 — Sub-moment resolution and exclusion: each numeric sub-key `t`
of a present section is written at absolute time `t` as the shallow
merge of the section's base under the sub-moment (sub-moment fields win:
`mergeField`) marked `_isSubMoment`, while the base is written at the
accumulated section start marked `_isSectionStart`; `getSongParts()`
equals the spec's filter that excludes sub-moment part labels unless
also section starts; and on the example track the entry at `55` inherits
`solo` and overrides `part`, and the sub-moment's `"fill"` label is
absent from the parts sequence. -/
theorem c2_sub_moment_resolution :
    (∀ (track : Track) (std : ℚ) (i : ℕ) (sd : RawSpec) (t : ℚ)
        (m : ArrangementSpec),
      track.standardSectionLength = some std → std ≠ 0 →
      1 ≤ i → i ≤ 20 → lookupSection track.timeline i = some sd →
      (t, m) ∈ sd.subMoments →
      (t, ({ spec := mergeSpec sd.base m,
             isSubMoment := true } : ResolvedArrangement))
          ∈ processTimelineKeys track ∧
      (claimSectionStart track std i,
        ({ spec := sd.base,
           isSectionStart := true } : ResolvedArrangement))
          ∈ processTimelineKeys track) ∧
    (∀ (b : Option String) (v : String),
      mergeField b (some v) = some v ∧ mergeField b none = b) ∧
    (∀ track : Track, extractSongParts track = specSongParts track) ∧
    timelineLookup (processTimelineKeys exTrackC2) 55
      = some { spec := { part := some "fill", solo := some "alice",
                         pickup := some "bob" },
               isSubMoment := true } ∧
    extractSongParts exTrackC2 = ["verse"] := by
  refine ⟨?_, fun b v => ⟨rfl, rfl⟩, extractSongParts_eq_spec, ?_, ?_⟩
  · intro track std i sd t m hstd h0 h1 h20 hsec hm
    constructor
    · rw [processTimelineKeys_some track std hstd h0,
          range'_split_at i h1 h20]
      exact List.mem_append_right _
        (sectionLoop_sub_mem track.timeline std i sd t m _ _ _ hsec hm)
    · rw [processTimelineKeys_some track std hstd h0,
          range'_split_at i h1 h20]
      refine List.mem_append_right _ ?_
      have hmem := sectionLoop_start_mem track.timeline std i sd
        (List.range' 1 (i - 1)) (List.range' (i + 1) (20 - i))
        (maxExplicitTime track) hsec
      rw [range'_one_concat i h1] at hmem
      exact hmem
  · rw [exTrackC2_processed]
    decide
  · simp only [extractSongParts, exTrackC2_processed]
    decide

/-- Witness for C2: the example sub-moment and section start are both
written to the processed timeline. -/
theorem c2_sub_moment_resolution_witness :
    ((55 : ℚ),
      ({ spec := mergeSpec { part := some "verse", solo := some "alice" }
           { part := some "fill", pickup := some "bob" },
         isSubMoment := true } : ResolvedArrangement))
        ∈ processTimelineKeys exTrackC2 ∧
    (claimSectionStart exTrackC2 30 1,
      ({ spec := { part := some "verse", solo := some "alice" },
         isSectionStart := true } : ResolvedArrangement))
        ∈ processTimelineKeys exTrackC2 :=
  c2_sub_moment_resolution.1 exTrackC2 30 1 _ 55
    { part := some "fill", pickup := some "bob" } rfl (by norm_num)
    (by norm_num) (by norm_num) exTrackC2_sec1 (by decide)

/-- Sorting does not change membership. -/
theorem mem_sortAsc (l : List ℚ) (t : ℚ) : t ∈ sortAsc l ↔ t ∈ l :=
  (List.perm_insertionSort (· ≤ ·) l).mem_iff

/-- The sorted collection is ascending. -/
theorem sortAsc_sorted (l : List ℚ) : (sortAsc l).Sorted (· ≤ ·) :=
  List.sorted_insertionSort (· ≤ ·) l

/-- A time is collected iff some numeric-key entry at that positive time
carries a moment-worthy `musicians` map or the legacy marker. -/
theorem mem_collectMomentTimes (l : List (TKey × RawSpec)) (t : ℚ) :
    t ∈ collectMomentTimes l ↔
      ∃ v : RawSpec, (TKey.num t, v) ∈ l ∧ 0 < t ∧
        (momentWorthy v.base = true ∨ v.base.detail = some "band-in") := by
  induction l with
  | nil => simp [collectMomentTimes]
  | cons p rest ih =>
    rcases p with ⟨k, v⟩
    rcases k with tk | n
    · simp only [collectMomentTimes, List.mem_append]
      constructor
      · rintro ((ha | hb) | h)
        · by_cases hc : 0 < tk ∧ momentWorthy v.base = true
          · rw [if_pos hc] at ha
            have htk := List.mem_singleton.mp ha
            subst htk
            exact ⟨v, List.mem_cons_self _ _, hc.1, Or.inl hc.2⟩
          · rw [if_neg hc] at ha
            cases ha
        · by_cases hc : 0 < tk ∧ v.base.detail = some "band-in"
          · rw [if_pos hc] at hb
            have htk := List.mem_singleton.mp hb
            subst htk
            exact ⟨v, List.mem_cons_self _ _, hc.1, Or.inr hc.2⟩
          · rw [if_neg hc] at hb
            cases hb
        · rcases ih.mp h with ⟨v', hv', ht, hw⟩
          exact ⟨v', List.mem_cons_of_mem _ hv', ht, hw⟩
      · rintro ⟨v', hv', ht, hw⟩
        rcases List.mem_cons.mp hv' with he | hm
        · rw [Prod.ext_iff] at he
          have h1 := he.1
          have h2 := he.2
          injection h1 with h1'
          subst h1'
          subst h2
          left
          rcases hw with hWorthy | hDetail
          · left
            rw [if_pos ⟨ht, hWorthy⟩]
            exact List.mem_singleton_self _
          · right
            rw [if_pos ⟨ht, hDetail⟩]
            exact List.mem_singleton_self _
        · right
          exact ih.mpr ⟨v', hm, ht, hw⟩
    · simp only [collectMomentTimes, List.nil_append]
      rw [ih]
      constructor
      · rintro ⟨v', hv', ht, hw⟩
        exact ⟨v', List.mem_cons_of_mem _ hv', ht, hw⟩
      · rintro ⟨v', hv', ht, hw⟩
        rcases List.mem_cons.mp hv' with he | hm
        · exfalso
          rw [Prod.ext_iff] at he
          exact TKey.noConfusion he.1
        · exact ⟨v', hm, ht, hw⟩

/-- C6 — Moment collection completeness: a time is a moment time exactly
when some raw timeline entry at that numeric key, with time strictly
positive, declares an individual in/out change or a band change
(including the legacy `detail: "band-in"` form); the collected sequence
is sorted ascending.  Section keys carry no numeric time in the raw
description, so only numeric keys contribute. -/
theorem c6_moment_collection_complete (track : Track) :
    (∀ t : ℚ, t ∈ extractMomentTimes track ↔
      ∃ v : RawSpec, (TKey.num t, v) ∈ track.timeline ∧ 0 < t ∧
        (momentWorthy v.base = true ∨ v.base.detail = some "band-in")) ∧
    (extractMomentTimes track).Sorted (· ≤ ·) := by
  refine ⟨fun t => ?_, sortAsc_sorted _⟩
  unfold extractMomentTimes
  rw [mem_sortAsc]
  exact mem_collectMomentTimes _ _

/-- Base weights are at least 100. -/
theorem lookup_initializeMusicianWeights_ge
    (ensemble : List (String × List String)) (name : String) (w : ℚ)
    (h : lookupStr (initializeMusicianWeights ensemble) name = some w) :
    100 ≤ w := by
  unfold lookupStr at h
  rcases hf : (initializeMusicianWeights ensemble).find?
      (fun p => p.1 = name) with _ | p
  · rw [hf] at h
    cases h
  · rw [hf] at h
    have h2 : p.2 = w := Option.some.inj h
    have hmem := List.mem_of_find?_eq_some hf
    unfold initializeMusicianWeights at hmem
    rcases List.mem_map.mp hmem with ⟨⟨i, q⟩, _, heq⟩
    have hw : p.2 = 100 + 10 * (i : ℚ) := by
      have := congrArg Prod.snd heq
      simpa using this.symm
    have hwz : (0 : ℚ) ≤ 10 * (i : ℚ) := by positivity
    rw [← h2, hw]
    linarith

/-- C9 counterexample — an arrangement that names its featured musician
only through the `soloist` key: the weight computation reads only
`solo`, so `s` falls through to its base weight `110`, which is *not*
less than non-featured `m`'s `100` (and not `1`). -/
theorem c9_counterexample :
    calculateDynamicWeight exTrackC9 [] (some exArrC9) "s" 0 = 110 ∧
    calculateDynamicWeight exTrackC9 [] (some exArrC9) "m" 0 = 100 ∧
    ¬(calculateDynamicWeight exTrackC9 [] (some exArrC9) "s" 0
        < calculateDynamicWeight exTrackC9 [] (some exArrC9) "m" 0) := by
  have hw : initializeMusicianWeights exTrackC9.ensemble
      = [("m", 100), ("s", 110)] := by
    norm_num [initializeMusicianWeights, exTrackC9, List.enum,
      List.enumFrom]
  have hs : calculateDynamicWeight exTrackC9 [] (some exArrC9) "s" 0
      = 110 := by
    norm_num [calculateDynamicWeight, fallbackWeight, Option.some_bind,
      exArrC9, hw, lookupStr, List.find?]
    decide
  have hm : calculateDynamicWeight exTrackC9 [] (some exArrC9) "m" 0
      = 100 := by
    norm_num [calculateDynamicWeight, fallbackWeight, Option.some_bind,
      exArrC9, hw, lookupStr, List.find?]
    decide
  refine ⟨hs, hm, ?_⟩
  rw [hs, hm]
  norm_num

/-- C9 (amended) — Weight ordering: when `s` is the arrangement's `solo`
(the `soloist` key is not consulted by the weight computation) and has
no feature scene, `weightOf s = 1`; a non-featured ensemble musician `m`
(no scene, not solo, not pickup) weighs `10 + index` when recently
featured, else base weight plus `5 × recency length`; and `s`'s weight
is strictly below `m`'s. -/
theorem c9_weight_ordering (track : Track) (recent : List String)
    (arr : ArrangementSpec) (s m : String) (T : ℚ) (bw : ℚ)
    (hsolo : arr.solo = some s)
    (hsScene : arr.feature.bind (fun f => lookupStr f s) = none)
    (hmScene : arr.feature.bind (fun f => lookupStr f m) = none)
    (hmSolo : arr.solo ≠ some m)
    (hmPickup : arr.pickup ≠ some m)
    (hmBase : lookupStr (initializeMusicianWeights track.ensemble) m
        = some bw) :
    calculateDynamicWeight track recent (some arr) s T = 1 ∧
    calculateDynamicWeight track recent (some arr) m T
      = (match recent.indexOf? m with
         | some ri => 10 + (ri : ℚ)
         | none => bw + (recent.length : ℚ) * 5) ∧
    calculateDynamicWeight track recent (some arr) s T
      < calculateDynamicWeight track recent (some arr) m T := by
  have hs : calculateDynamicWeight track recent (some arr) s T = 1 := by
    simp [calculateDynamicWeight, fallbackWeight, Option.some_bind,
      hsScene, hsolo]
  have hm : calculateDynamicWeight track recent (some arr) m T
      = (match recent.indexOf? m with
         | some ri => 10 + (ri : ℚ)
         | none => bw + (recent.length : ℚ) * 5) := by
    simp [calculateDynamicWeight, fallbackWeight, Option.some_bind,
      hmScene, hmSolo, hmPickup, hmBase]
  refine ⟨hs, hm, ?_⟩
  rw [hs, hm]
  rcases hidx : recent.indexOf? m with _ | ri
  · have h100 := lookup_initializeMusicianWeights_ge track.ensemble m bw
      hmBase
    have h5 : (0 : ℚ) ≤ (recent.length : ℚ) * 5 := by positivity
    show (1 : ℚ) < bw + (recent.length : ℚ) * 5
    linarith
  · have hri : (0 : ℚ) ≤ (ri : ℚ) := by positivity
    show (1 : ℚ) < 10 + (ri : ℚ)
    linarith

/-- Witness for C9 at a concrete two-musician track. -/
theorem c9_weight_ordering_witness :
    calculateDynamicWeight exTrackC9 [] (some exArrC9solo) "s" 0 = 1 ∧
    calculateDynamicWeight exTrackC9 [] (some exArrC9solo) "m" 0
      = (match ([] : List String).indexOf? "m" with
         | some ri => 10 + (ri : ℚ)
         | none => 100 + (([] : List String).length : ℚ) * 5) ∧
    calculateDynamicWeight exTrackC9 [] (some exArrC9solo) "s" 0
      < calculateDynamicWeight exTrackC9 [] (some exArrC9solo) "m" 0 :=
  c9_weight_ordering exTrackC9 [] exArrC9solo "s" "m" 0 100 rfl rfl rfl
    (by decide) (by decide)
    (by norm_num [initializeMusicianWeights, lookupStr, List.find?,
      List.enum, List.enumFrom, exTrackC9])

/-- Surviving the whole run means every tick so far was strictly before
the moment: firing or culling happens exactly at the first tick at or
past it. -/
theorem mem_pendingAfter (p0 ts : List ℚ) (m : ℚ) :
    m ∈ pendingAfter p0 ts ↔ m ∈ p0 ∧ ∀ u ∈ ts, u - m < 0 := by
  induction ts generalizing p0 with
  | nil => simp [pendingAfter]
  | cons t ts ih =>
    rw [pendingAfter, ih]
    simp only [checkForMoments]
    simp [momentsFuture, List.mem_filter]
    tauto

/-- One tick of the fired-moments run. -/
theorem firedTimes_cons (p : List ℚ) (t : ℚ) (ts : List ℚ) :
    firedTimes p (t :: ts)
      = momentsDue p t ++ firedTimes (momentsFuture p t) ts := rfl

/-- The empty run fires nothing. -/
theorem firedTimes_nil (p : List ℚ) : firedTimes p [] = [] := rfl

/-- Every fired moment was pending at the start. -/
theorem fired_subset (p ts : List ℚ) (m : ℚ)
    (hm : m ∈ firedTimes p ts) : m ∈ p := by
  induction ts generalizing p with
  | nil =>
    rw [firedTimes_nil] at hm
    cases hm
  | cons t ts ih =>
    rw [firedTimes_cons] at hm
    rcases List.mem_append.mp hm with h | h
    · exact (List.mem_filter.mp h).1
    · exact (List.mem_filter.mp (ih _ h)).1

/-- With a duplicate-free initial pending list, each moment time fires
at most once across the whole run. -/
theorem count_firedTimes_le_one (p0 ts : List ℚ) (m : ℚ)
    (hnd : p0.Nodup) : (firedTimes p0 ts).count m ≤ 1 := by
  induction ts generalizing p0 with
  | nil => simp [firedTimes_nil]
  | cons t ts ih =>
    rw [firedTimes_cons, List.count_append]
    by_cases hdue : m ∈ momentsDue p0 t
    · have hc1 : (momentsDue p0 t).count m ≤ 1 :=
        List.nodup_iff_count_le_one.mp (hnd.filter _) m
      have hd := List.mem_filter.mp hdue
      have hcond : ¬t - m < 0 ∧ t - m ≤ 1 := by simpa using hd.2
      have hnf : m ∉ momentsFuture p0 t := by
        intro hf
        have hff := List.mem_filter.mp hf
        have : t - m < 0 := by simpa using hff.2
        exact hcond.1 this
      have hc0 : (firedTimes (momentsFuture p0 t) ts).count m = 0 :=
        List.count_eq_zero.mpr (fun hc => hnf (fired_subset _ _ _ hc))
      omega
    · have hc0 : (momentsDue p0 t).count m = 0 :=
        List.count_eq_zero.mpr hdue
      have := ih (momentsFuture p0 t) (hnd.filter _)
      omega

/-- C5 — Moment edge-triggering discipline: a moment `m` fires at the
tick with time `T` after earlier polls `pre` iff it was initially
pending, every earlier poll was strictly before `m` (it was neither
fired nor culled yet), and `0 ≤ T - m ≤ 1`; a pending moment more than
one second past is removed without firing; with a duplicate-free initial
list every moment fires at most once over any run; a moment at `50`
fires when polled at `50.5`, and never fires when the polls skip
`[50, 51]` (first post-moment poll at `52`). -/
theorem c5_moment_edge_triggering :
    (∀ (p0 pre : List ℚ) (T m : ℚ),
      m ∈ momentsDue (pendingAfter p0 pre) T ↔
        m ∈ p0 ∧ (∀ u ∈ pre, u - m < 0) ∧ 0 ≤ T - m ∧ T - m ≤ 1) ∧
    (∀ (p : List ℚ) (T m : ℚ), m ∈ p → 1 < T - m →
      m ∉ momentsDue p T ∧ m ∉ momentsFuture p T) ∧
    (∀ (p0 ts : List ℚ) (m : ℚ), p0.Nodup →
      (firedTimes p0 ts).count m ≤ 1) ∧
    firedTimes [50] [(50.5 : ℚ)] = [50] ∧
    firedTimes [50] [10, 52, 60] = [] := by
  refine ⟨?_, ?_, count_firedTimes_le_one, ?_, ?_⟩
  · intro p0 pre T m
    simp [momentsDue, List.mem_filter, mem_pendingAfter, not_lt,
      sub_nonneg]
    tauto
  · intro p T m _hm hmiss
    constructor
    · intro hdue
      have h := List.mem_filter.mp hdue
      have hc : ¬T - m < 0 ∧ T - m ≤ 1 := by simpa using h.2
      linarith [hc.2]
    · intro hfut
      have h := List.mem_filter.mp hfut
      have hc : T - m < 0 := by simpa using h.2
      linarith
  · norm_num [firedTimes_cons, firedTimes_nil, momentsDue,
      momentsFuture, List.filter]
  · norm_num [firedTimes_cons, firedTimes_nil, momentsDue,
      momentsFuture, List.filter]

/-- Witness for C5 at the spec's concrete polls. -/
theorem c5_moment_edge_triggering_witness :
    ((50 : ℚ) ∈ momentsDue (pendingAfter [50] []) 50.5 ↔
      (50 : ℚ) ∈ [(50 : ℚ)] ∧ (∀ u ∈ ([] : List ℚ), u - 50 < 0) ∧
        0 ≤ (50.5 : ℚ) - 50 ∧ (50.5 : ℚ) - 50 ≤ 1) ∧
    ((50 : ℚ) ∉ momentsDue [(50 : ℚ)] 52 ∧
      (50 : ℚ) ∉ momentsFuture [(50 : ℚ)] 52) ∧
    (firedTimes [(50 : ℚ)] [10, 52, 60]).count 50 ≤ 1 :=
  ⟨c5_moment_edge_triggering.1 [50] [] 50.5 50,
   c5_moment_edge_triggering.2.1 [50] 52 50 (by norm_num) (by norm_num),
   c5_moment_edge_triggering.2.2.1 [50] [10, 52, 60] 50 (by norm_num)⟩

end Rabbithole
